import Mathlib

/-!
Verification of the analytics core of the `fantasy_baseball` repository.

The development shallowly embeds the normalization, rolling-window,
window-selection, ranking, recommendation and team-accumulation logic of
`analyze_keepers.py`, `run_ts_analysis.py`, `analyze_league_rosters.py` and
`generate_roster_recommendations.py`.  Raw statistic values are modelled as
rationals; dates are modelled as natural numbers (days); pandas floating-point
NaN is modelled explicitly where the source can produce it.
-/

/-- A pandas float cell that is either a numeric value or NaN.  Used where the
source's arithmetic can produce NaN (sample standard deviation of a cohort of
size 1, and division by such a NaN). -/
inductive PFloat where
  | nan : PFloat
  | val : ℚ → PFloat
deriving DecidableEq, Repr

/-- Negation of a pandas float; NaN is absorbing.  Models the `* -1` flip for
ascending categories in `analyze_keepers.py` line 40. -/
def PFloat.neg : PFloat → PFloat
  | .nan => .nan
  | .val q => .val (-q)

/-- `Series.fillna(0)`: replace NaN by 0, keep numeric values. -/
def PFloat.fillna0 : PFloat → ℚ
  | .nan => 0
  | .val q => q

/-- Cohort mean, `df[col].mean()`.  (For an empty list this is `0/0 = 0` in ℚ;
cohorts produced by a pandas groupby are never empty.) -/
def mean (xs : List ℚ) : ℚ := xs.sum / xs.length

/-- Sum of squared deviations from the cohort mean, the numerator of the
sample variance. -/
def sumSqDev (xs : List ℚ) : ℚ := (xs.map (fun x => (x - mean xs) ^ 2)).sum

/-- Sample variance with `ddof = 1`, exactly as `pandas.Series.var`: NaN
(`none`) for cohorts of size at most 1, otherwise the sum of squared
deviations divided by `n - 1`.  `pandas.Series.std` is its square root, so
the std is NaN iff the variance is `none` and the std equals 0 iff the
variance equals 0; those are the only facts about the std that the branching
in the source depends on. -/
def pandasVar (xs : List ℚ) : Option ℚ :=
  if xs.length ≤ 1 then none
  else some (sumSqDev xs / ((xs.length : ℚ) - 1))

/-- One category of `calculate_z_scores` (`analyze_keepers.py` lines 26-40).
The source computes `std = df[cat].std()` and branches on `std == 0`:

* pandas std is NaN when the cohort has at most one row (ddof = 1); the
  comparison `NaN == 0` is false, so the source falls into the division
  branch and `(x - mean)/NaN` is NaN for every row;
* `std == 0` holds exactly when the sample variance is 0, and then the source
  assigns the literal 0 to every row;
* otherwise the source divides by the (irrational, in general) standard
  deviation, which this model takes as the parameter `std`;

finally, for a category in `ascending_categories` the scores are negated. -/
def zScoresCat (xs : List ℚ) (std : ℚ) (asc : Bool) : List PFloat :=
  let base :=
    match pandasVar xs with
    | none => xs.map (fun _ => PFloat.nan)
    | some v =>
        if v = 0 then xs.map (fun _ => PFloat.val 0)
        else xs.map (fun x => PFloat.val ((x - mean xs) / std))
  if asc then base.map PFloat.neg else base

/-- One category of `calculate_daily_value` (`run_ts_analysis.py` lines 29-35,
identical in `generate_roster_recommendations.py` and
`analyze_league_rosters.py`).  The source computes `std = df[col].std()`,
substitutes `std = 1` when `std == 0`, and emits `(x - mean)/std`:

* a cohort of at most one row has NaN std, `NaN == 0` is false, so the
  divisor stays NaN and every quotient is NaN;
* zero sample variance triggers the substitution and the divisor is 1;
* otherwise the divisor is the true standard deviation, taken as `std`. -/
def dailyZCat (xs : List ℚ) (std : ℚ) : List PFloat :=
  match pandasVar xs with
  | none => xs.map (fun _ => PFloat.nan)
  | some v =>
      if v = 0 then xs.map (fun x => PFloat.val ((x - mean xs) / 1))
      else xs.map (fun x => PFloat.val ((x - mean xs) / std))

/-- The contribution of one category to `Daily_Value`: the source applies
`.fillna(0)` before accumulating (`run_ts_analysis.py` line 35). -/
def dailyContribCat (xs : List ℚ) (std : ℚ) : List ℚ :=
  (dailyZCat xs std).map PFloat.fillna0

/-- One player column of the pivoted value matrix
(`pivot_val = player_daily.pivot(index='date', ...).fillna(0)`,
`generate_roster_recommendations.py` line 61, `run_ts_analysis.py` line 64).
`obs` is the list of observed `(date, Daily_Value)` rows for the player after
the groupby-sum over multi-game days; days with several rows are summed and
days with no row become 0 via `fillna(0)`. -/
def pivotColumn (obs : List (ℕ × ℚ)) (numDays : ℕ) : List ℚ :=
  (List.range numDays).map (fun d => ((obs.filter (fun p => p.1 == d)).map Prod.snd).sum)

/-- `pivot_val.rolling(window=W).mean()` on one column
(`generate_roster_recommendations.py` line 62, `run_ts_analysis.py` line 72).
pandas uses `min_periods = window` by default, so position `i` holds NaN
(`none`) while fewer than `W` rows of history exist, and otherwise the mean
of the `W` rows ending at `i` inclusive. -/
def rollingMean (W : ℕ) (xs : List ℚ) : List (Option ℚ) :=
  (List.range xs.length).map (fun i =>
    if i + 1 < W then none
    else some (((xs.take (i + 1)).drop (i + 1 - W)).sum / (W : ℚ)))

/-- The candidate window lengths of the Window Optimizer,
`windows = list(range(3, 91, 3))` (`analyze_league_rosters.py` line 66). -/
def windowsList : List ℕ :=
  [3, 6, 9, 12, 15, 18, 21, 24, 27, 30, 33, 36, 39, 42, 45, 48, 51, 54, 57,
   60, 63, 66, 69, 72, 75, 78, 81, 84, 87, 90]

/-- Python `<` on floats where `none` is NaN: any comparison with NaN is
false. -/
def nanLt : Option ℚ → Option ℚ → Bool
  | some a, some b => decide (a < b)
  | _, _ => false

/-- Python `>=` on floats where `none` is NaN: any comparison with NaN is
false.  This is the comparison in `if correlations[w] >= threshold`
(`analyze_league_rosters.py` line 97). -/
def nanGe : Option ℚ → Option ℚ → Bool
  | some a, some b => decide (b ≤ a)
  | _, _ => false

/-- Python `max()` over the dict values `correlations.values()`
(`analyze_league_rosters.py` line 89): scan keeping the current maximum,
replacing it only when the next item compares strictly greater; since every
comparison against NaN is false, NaN never replaces the current value but
poisons the scan when it is the first item.  Python raises on an empty
iterable; the model returns `none` there (the candidate list is never
empty). -/
def pyMax : List (Option ℚ) → Option ℚ
  | [] => none
  | x :: xs => xs.foldl (fun c y => if nanLt c y then y else c) x

/-- `threshold = 0.90 * max_corr` (`analyze_league_rosters.py` line 90);
multiplication by NaN is NaN. -/
def nanMul09 : Option ℚ → Option ℚ
  | none => none
  | some a => some (0.90 * a)

/-- The window-selection rule of the Window Optimizer
(`analyze_league_rosters.py` lines 87-100): `best_window = 90; best_corr = 0`,
then scan the candidate windows in increasing order and stop at the first one
whose correlation is `>= threshold`; a correlation of `none` models the NaN
that `pandas.Series.corr` returns when fewer than 2 paired observations
exist. -/
def selectWindow (ws : List ℕ) (corr : ℕ → Option ℚ) : ℕ × Option ℚ :=
  let th := nanMul09 (pyMax (ws.map corr))
  match ws.find? (fun w => nanGe (corr w) th) with
  | some w => (w, corr w)
  | none => (90, some 0)

/-- Python `max` over a nonempty list of (non-NaN) floats, as a rational:
fold of the binary max over the tail starting from the head. -/
def foldMaxQ : List ℚ → ℚ
  | [] => 0
  | x :: xs => xs.foldl max x

example : pivotColumn [(0, 2), (2, 5), (2, 1)] 4 = [2, 0, 6, 0] := by
  norm_num [pivotColumn, List.range_succ]
example : rollingMean 2 [1, 3, 5] = [none, some 2, some 4] := by
  norm_num [rollingMean, List.range_succ]
example : selectWindow windowsList (fun w => if w = 3 then none else some 1) =
    (90, some 0) := by
  norm_num [selectWindow, windowsList, pyMax, nanLt, nanGe, nanMul09]
example : selectWindow windowsList (fun _ => some 1) = (3, some 1) := by
  norm_num [selectWindow, windowsList, pyMax, nanLt, nanGe, nanMul09]

/-- Descending comparison of records by a rational key, used to model sorting
a pandas DataFrame on one numeric column with `ascending=False`. -/
def keyGE {α : Type} (key : α → ℚ) : α → α → Prop :=
  fun a b => key b ≤ key a

instance {α : Type} (key : α → ℚ) : DecidableRel (keyGE key) :=
  fun a b => inferInstanceAs (Decidable (key b ≤ key a))

instance {α : Type} (key : α → ℚ) : IsTotal α (keyGE key) :=
  ⟨fun a b => le_total (key b) (key a)⟩

instance {α : Type} (key : α → ℚ) : IsTrans α (keyGE key) :=
  ⟨fun _ _ _ hab hbc => le_trans hbc hab⟩

/-- `DataFrame.sort_values(by=key, ascending=False)` with the default
`kind='quicksort'`.  pandas sorts a single numeric column through `nargsort`
(`pandas/core/sorting.py`), which for a descending sort reverses both the
value array and the index array, computes a stable ascending argsort of the
reversed values, maps the positions through the reversed index, and finally
reverses the resulting indexer.  The pre-reversal of values/index together
with the post-reversal of the indexer (the stable-descending fix of pandas
issue 6399) cancel out on ties: the net effect, for a stable underlying
kernel (numpy's argsort is its stable insertion sort on slices below the
introsort cutoff, covering the cohorts of the concrete statements below), is
a stable descending sort — keys weakly decreasing, tied rows keeping their
original relative order.  Modelled as a stable insertion sort under the
reversed key comparison. -/
def sortValuesDescBy {α : Type} (key : α → ℚ) (l : List α) : List α :=
  List.insertionSort (keyGE key) l

/-- One row of the season aggregate ranked by the Season Ranker: the original
row identity, the fantasy team and the season `Total_Z`
(`analyze_keepers.py`). -/
structure RankedPlayer where
  pid : ℕ
  team : ℕ
  totalZ : ℚ
deriving DecidableEq, Repr

/-- `team_df = all_ranked[all_ranked['teamId'] == team_id]`
(`analyze_keepers.py` line 147). -/
def teamPlayers (l : List RankedPlayer) (t : ℕ) : List RankedPlayer :=
  l.filter (fun p => p.team == t)

/-- `top_5 = team_df.sort_values(by='Total_Z', ascending=False).head(5)`
(`analyze_keepers.py` line 152). -/
def teamTop5 (l : List RankedPlayer) (t : ℕ) : List RankedPlayer :=
  (sortValuesDescBy (fun p => p.totalZ) (teamPlayers l t)).take 5

example : teamTop5 [⟨1, 10, 2⟩, ⟨2, 10, 2⟩] 10 = [⟨1, 10, 2⟩, ⟨2, 10, 2⟩] := by
  decide
example : teamTop5 [⟨1, 10, 2⟩, ⟨2, 10, 5⟩, ⟨3, 10, 2⟩] 10 =
    [⟨2, 10, 5⟩, ⟨1, 10, 2⟩, ⟨3, 10, 2⟩] := by
  decide

/-- One row of `roster_history_2025.csv` after preprocessing: a roster
interval with inclusive start and end dates (an open `end_date` has already
been clamped to the last stats date by the `fillna(max_date)` at load
time). -/
structure RosterRow where
  team : String
  pid : String
  pname : String
  startD : ℕ
  endD : ℕ
deriving DecidableEq, Repr

/-- One row of the long-format rolling-value table `rolling_long`
(`generate_roster_recommendations.py` lines 65-70): date, player id,
28-day rolling value, player name.  Rows whose rolling value is NaN are
absent, since `.stack()` drops NaN. -/
structure RollingRow where
  date : ℕ
  pid : String
  value : ℚ
  pname : String
deriving DecidableEq, Repr

/-- One flagged opportunity appended to `recommendations`
(`generate_roster_recommendations.py` lines 136-141). -/
structure Recommendation where
  date : ℕ
  myPlayer : String
  myVal : ℚ
  betterFA : List (String × ℚ)
deriving DecidableEq, Repr

/-- Roster intervals active on day `d`:
`(start_date <= d) & (end_date >= d)` with both bounds inclusive
(`generate_roster_recommendations.py` lines 87-88 and 102-103,
`analyze_league_rosters.py` line 145). -/
def activeOn (rows : List RosterRow) (d : ℕ) : List RosterRow :=
  rows.filter (fun r => decide (r.startD ≤ d) && decide (d ≤ r.endD))

/-- The roster player's value at the checkpoint:
`my_stat = day_stats[day_stats['player_id'] == p_id]`, with the sentinel
`my_val = -999` when no row matches and otherwise the first matching row's
value (`generate_roster_recommendations.py` lines 119-123). -/
def lookupMyVal (dayStats : List RollingRow) (pid : String) : ℚ :=
  match dayStats.find? (fun s => s.pid == pid) with
  | none => -999
  | some s => s.value

/-- `better = top_fas[top_fas['Rolling_Value'] > my_val + 0.75]`
(`generate_roster_recommendations.py` line 126): the free-agent candidates
flagged against one roster player. -/
def flaggedFAs (topFAs : List RollingRow) (myVal : ℚ) : List RollingRow :=
  topFAs.filter (fun fa => decide (myVal + 0.75 < fa.value))

/-- `current_roster`: the target team's roster intervals covering the
checkpoint (`generate_roster_recommendations.py` lines 85-89). -/
def currentRosterOf (rosterRows : List RosterRow) (team : String) (d : ℕ) :
    List RosterRow :=
  (activeOn rosterRows d).filter (fun r => r.team == team)

/-- `day_stats = rolling_long[rolling_long['date'] == check_date]`
(`generate_roster_recommendations.py` line 95). -/
def dayStatsOf (rollingRows : List RollingRow) (d : ℕ) : List RollingRow :=
  rollingRows.filter (fun r => r.date == d)

/-- `top_fas`: rows of the checkpoint day belonging to no rostered player,
sorted by rolling value descending, first 20 kept
(`generate_roster_recommendations.py` lines 101-111). -/
def topFAsOf (rosterRows : List RosterRow) (rollingRows : List RollingRow)
    (d : ℕ) : List RollingRow :=
  let allRostered := (activeOn rosterRows d).map (fun r => r.pid)
  let faStats := (dayStatsOf rollingRows d).filter
    (fun r => !(allRostered.contains r.pid))
  (sortValuesDescBy (fun r => r.value) faStats).take 20

/-- The comparison of one roster player against the free-agent candidates
(`generate_roster_recommendations.py` lines 114-141): sentinel-aware lookup
of the player's value, filter of candidates more than 0.75 above it, and a
recommendation carrying the top two of them when any exist. -/
def recFor (topFAs : List RollingRow) (dayStats : List RollingRow) (d : ℕ)
    (r : RosterRow) : Option Recommendation :=
  let mv := lookupMyVal dayStats r.pid
  let better := flaggedFAs topFAs mv
  if better.isEmpty then none
  else some { date := d, myPlayer := r.pname, myVal := mv,
              betterFA := (better.take 2).map (fun fa => (fa.pname, fa.value)) }

/-- The work of one weekly checkpoint
(`generate_roster_recommendations.py` lines 82-141): an empty target roster
or an empty checkpoint day produces no recommendations at all (`continue`),
otherwise each roster player is compared against the top free agents. -/
def checkpointRecs (rosterRows : List RosterRow) (team : String)
    (rollingRows : List RollingRow) (checkDate : ℕ) : List Recommendation :=
  let currentRoster := currentRosterOf rosterRows team checkDate
  if currentRoster.isEmpty then [] else
  let dayStats := dayStatsOf rollingRows checkDate
  if dayStats.isEmpty then [] else
  currentRoster.filterMap
    (recFor (topFAsOf rosterRows rollingRows checkDate) dayStats checkDate)

example :
    checkpointRecs [⟨"A", "p1", "P1", 0, 10⟩] "A" [⟨5, "q", 2, "Q"⟩] 5 =
      [⟨5, "P1", -999, [("Q", 2)]⟩] := by
  simp [checkpointRecs, currentRosterOf, dayStatsOf, topFAsOf, recFor, activeOn,
    lookupMyVal, flaggedFAs, sortValuesDescBy, keyGE, List.insertionSort,
    List.orderedInsert, List.filterMap]
  all_goals norm_num

/-- `day_vals.get(pid, 0.0)` (`analyze_league_rosters.py` lines 142 and 150):
the summed daily value of player `pid` on day `d` out of the long-format
`player_daily` table, defaulting to 0 when the player has no row that day. -/
def dayValLookup (playerDaily : List (ℕ × String × ℚ)) (d : ℕ) (pid : String) : ℚ :=
  match (playerDaily.filter (fun r => r.1 == d)).find? (fun r => r.2.1 == pid) with
  | none => 0
  | some r => r.2.2

/-- The Team Success accumulation (`analyze_league_rosters.py` lines 140-151)
restricted to one team `t`: for every day `d` of the inclusive range
`pd.date_range(startD, endD)`, every roster interval active on `d` and
belonging to `t` adds its player's daily value (default 0) to the team
total. -/
def teamTotal (intervals : List RosterRow) (playerDaily : List (ℕ × String × ℚ))
    (startD endD : ℕ) (t : String) : ℚ :=
  ((List.range (endD + 1 - startD)).map (fun k =>
    (((activeOn intervals (startD + k)).filter (fun iv => iv.team == t)).map
      (fun iv => dayValLookup playerDaily (startD + k) iv.pid)).sum)).sum

example :
    teamTotal [⟨"A", "p", "P", 0, 9⟩] [(1, "p", 3), (2, "p", 4)] 1 2 "A" = 7 := by
  norm_num [teamTotal, activeOn, dayValLookup, List.range_succ]

/-- `pandas.Series.mode()` of the daily `teamId` values of one player: the
values attaining the maximal count, in ascending order
(pandas always returns the modes sorted). -/
def modeList (xs : List ℕ) : List ℕ :=
  let uniq := xs.dedup
  let m := (uniq.map (fun v => xs.count v)).foldl max 0
  List.insertionSort (fun a b => a ≤ b) (uniq.filter (fun v => xs.count v == m))

/-- The `teamId` aggregation rule of the Season Ranker
(`analyze_keepers.py` line 71):
`lambda x: x.mode()[0] if not x.mode().empty else x.iloc[-1]` — the first
(smallest) mode, falling back to the last record's team only when the mode
list is empty.  (`x.iloc[-1]` on an empty series would raise; the model
returns 0 there, and the group produced by `groupby` is never empty.) -/
def aggTeamId (xs : List ℕ) : ℕ :=
  match modeList xs with
  | m :: _ => m
  | [] => xs.getLast?.getD 0

example : aggTeamId [7, 7, 2] = 7 := by decide
example : aggTeamId [7, 2, 7, 2, 5] = 2 := by decide

/-! ### Helper lemmas -/

theorem sum_zero_of_nonneg {l : List ℚ} (hpos : ∀ x ∈ l, 0 ≤ x) (h : l.sum = 0) :
    ∀ x ∈ l, x = 0 := by
  induction l with
  | nil => intro x hx; cases hx
  | cons a t ih =>
    intro x hx
    have ha : 0 ≤ a := hpos a (List.mem_cons_self a t)
    have ht : 0 ≤ t.sum := List.sum_nonneg fun y hy => hpos y (List.mem_cons_of_mem _ hy)
    rw [List.sum_cons] at h
    rcases List.mem_cons.mp hx with rfl | hx
    · linarith
    · exact ih (fun y hy => hpos y (List.mem_cons_of_mem _ hy)) (by linarith) x hx

theorem eq_mean_of_sumSqDev_eq_zero {xs : List ℚ} (h : sumSqDev xs = 0) :
    ∀ x ∈ xs, x = mean xs := by
  intro x hx
  have hmem : (x - mean xs) ^ 2 ∈ xs.map (fun y => (y - mean xs) ^ 2) :=
    List.mem_map_of_mem _ hx
  have hz := sum_zero_of_nonneg
    (fun z hzm => by rcases List.mem_map.mp hzm with ⟨y, _, rfl⟩; exact sq_nonneg _)
    h _ hmem
  have hx0 : x - mean xs = 0 := by
    have := sq_eq_zero_iff.mp hz
    exact this
  linarith

theorem pandasVar_eq_zero {xs : List ℚ} (h : pandasVar xs = some 0) :
    2 ≤ xs.length ∧ sumSqDev xs = 0 := by
  unfold pandasVar at h
  split at h
  · cases h
  · rename_i hc
    refine ⟨by omega, ?_⟩
    have hinj : sumSqDev xs / ((xs.length : ℚ) - 1) = 0 := Option.some.inj h
    have hlen : (2 : ℚ) ≤ (xs.length : ℚ) := by exact_mod_cast (by omega : 2 ≤ xs.length)
    have hden : ((xs.length : ℚ) - 1) ≠ 0 := by linarith
    rcases div_eq_zero_iff.mp hinj with h0 | h0
    · exact h0
    · exact absurd h0 hden

theorem take_drop_window (xs : List ℚ) (a : ℕ) :
    ∀ b : ℕ, a + b ≤ xs.length →
      (xs.take (a + b)).drop a = (List.range b).map (fun j => xs.getD (a + j) 0) := by
  intro b
  induction b with
  | zero =>
    intro _
    have hlen : (xs.take a).length ≤ a := by
      rw [List.length_take]; exact min_le_left _ _
    simp [List.drop_eq_nil_of_le hlen]
  | succ b ih =>
    intro hb
    have hab : a + b < xs.length := by omega
    have h1 : a + (b + 1) = (a + b) + 1 := by omega
    rw [h1, List.take_succ, List.getElem?_eq_getElem hab]
    rw [List.drop_append_of_le_length (by rw [List.length_take]; omega)]
    rw [ih (by omega), List.range_succ, List.map_append]
    congr 1
    simp [List.getD_eq_getElem?_getD, List.getElem?_eq_getElem hab]

theorem nanLt_none_left (y : Option ℚ) : nanLt none y = false := by
  cases y <;> rfl

theorem nanGe_none_left (y : Option ℚ) : nanGe none y = false := by
  cases y <;> rfl

theorem nanGe_none_right (x : Option ℚ) : nanGe x none = false := by
  cases x <;> rfl

theorem foldl_pymax_none (l : List (Option ℚ)) :
    l.foldl (fun c y => if nanLt c y then y else c) none = none := by
  induction l with
  | nil => rfl
  | cons a t ih =>
    rw [List.foldl_cons, nanLt_none_left, if_neg (by simp)]
    exact ih

theorem foldl_pymax_some (t : List ℚ) :
    ∀ c : ℚ, ((t.map (fun q => some q)).foldl
        (fun c y => if nanLt c y then y else c) (some c)) = some (t.foldl max c) := by
  induction t with
  | nil => intro c; rfl
  | cons b s ih =>
    intro c
    rw [List.map_cons, List.foldl_cons, List.foldl_cons]
    by_cases hcb : c < b
    · rw [if_pos (by simp [nanLt, hcb]), max_eq_right (le_of_lt hcb)]
      exact ih b
    · rw [if_neg (by simp [nanLt, hcb]), max_eq_left (le_of_not_lt hcb)]
      exact ih c

theorem pyMax_map_some (l : List ℚ) (hl : l ≠ []) :
    pyMax (l.map (fun q => some q)) = some (foldMaxQ l) := by
  cases l with
  | nil => exact absurd rfl hl
  | cons a t =>
    rw [List.map_cons]
    exact foldl_pymax_some t a

theorem find?_min_of_sorted {p : ℕ → Bool} :
    ∀ {l : List ℕ}, l.Pairwise (· ≤ ·) → ∀ {w : ℕ}, l.find? p = some w →
      ∀ u ∈ l, p u = true → w ≤ u := by
  intro l
  induction l with
  | nil => intro _ w hf; cases hf
  | cons a t ih =>
    intro hs w hf u hu hpu
    rcases List.pairwise_cons.mp hs with ⟨hat, hts⟩
    by_cases hpa : p a = true
    · rw [List.find?_cons_of_pos _ hpa] at hf
      have hw : w = a := (Option.some.inj hf).symm
      subst hw
      rcases List.mem_cons.mp hu with rfl | hu
      · exact le_refl _
      · exact hat u hu
    · rw [List.find?_cons_of_neg _ hpa] at hf
      rcases List.mem_cons.mp hu with rfl | hu
      · exact absurd hpu hpa
      · exact ih hts hf u hu hpu

theorem sortValuesDescBy_perm {α : Type} (key : α → ℚ) (l : List α) :
    (sortValuesDescBy key l).Perm l := by
  unfold sortValuesDescBy
  exact List.perm_insertionSort _ _

theorem sortValuesDescBy_pairwise {α : Type} (key : α → ℚ) (l : List α) :
    (sortValuesDescBy key l).Pairwise (fun a b => key b ≤ key a) := by
  unfold sortValuesDescBy
  exact List.sorted_insertionSort (keyGE key) l

theorem filter_orderedInsert_key {α : Type} (key : α → ℚ) (a : α) (q : ℚ) :
    ∀ s : List α,
      (List.orderedInsert (keyGE key) a s).filter (fun x => key x == q) =
        if key a == q then a :: s.filter (fun x => key x == q)
        else s.filter (fun x => key x == q) := by
  intro s
  induction s with
  | nil =>
    rw [List.orderedInsert, List.filter_cons, List.filter_nil]
  | cons b t ih =>
    rw [List.orderedInsert]
    by_cases hab : keyGE key a b
    · rw [if_pos hab, List.filter_cons]
    · rw [if_neg hab, List.filter_cons, ih, List.filter_cons]
      have hlt : key a < key b := not_le.mp hab
      by_cases haq : (key a == q) = true
      · have haq2 : key a = q := beq_iff_eq.mp haq
        have hbq : ¬ ((key b == q) = true) := by
          intro hb
          have hbq2 : key b = q := beq_iff_eq.mp hb
          rw [haq2, hbq2] at hlt
          exact lt_irrefl q hlt
        simp [haq, hbq]
      · simp [haq]

theorem filter_insertionSort_key {α : Type} (key : α → ℚ) (q : ℚ) :
    ∀ l : List α,
      (List.insertionSort (keyGE key) l).filter (fun x => key x == q) =
        l.filter (fun x => key x == q) := by
  intro l
  induction l with
  | nil => rfl
  | cons a t ih =>
    rw [List.insertionSort, filter_orderedInsert_key, ih, List.filter_cons]

/-- Stability of the modelled descending sort: rows of any fixed key value
appear in the output in their original relative order. -/
theorem sortValuesDescBy_stable {α : Type} (key : α → ℚ) (q : ℚ) (l : List α) :
    (sortValuesDescBy key l).filter (fun x => key x == q) =
      l.filter (fun x => key x == q) :=
  filter_insertionSort_key key q l

theorem topFAsOf_pairwise (rosterRows : List RosterRow)
    (rollingRows : List RollingRow) (d : ℕ) :
    (topFAsOf rosterRows rollingRows d).Pairwise (fun a b => b.value ≤ a.value) := by
  unfold topFAsOf
  exact (sortValuesDescBy_pairwise _ _).sublist (List.take_sublist _ _)

theorem le_foldl_max (l : List ℕ) : ∀ a : ℕ, a ≤ l.foldl max a := by
  induction l with
  | nil => intro a; exact le_refl a
  | cons b t ih =>
    intro a
    rw [List.foldl_cons]
    exact le_trans (le_max_left a b) (ih (max a b))

theorem mem_le_foldl_max {l : List ℕ} {x : ℕ} (hx : x ∈ l) :
    ∀ a : ℕ, x ≤ l.foldl max a := by
  induction l with
  | nil => cases hx
  | cons b t ih =>
    intro a
    rw [List.foldl_cons]
    rcases List.mem_cons.mp hx with rfl | hx
    · exact le_trans (le_max_right a x) (le_foldl_max t _)
    · exact ih hx (max a b)

theorem foldl_max_mem (l : List ℕ) : ∀ a : ℕ, l.foldl max a = a ∨ l.foldl max a ∈ l := by
  induction l with
  | nil => intro a; exact Or.inl rfl
  | cons b t ih =>
    intro a
    rw [List.foldl_cons]
    rcases ih (max a b) with h | h
    · rcases max_choice a b with hm | hm
      · exact Or.inl (h.trans hm)
      · exact Or.inr (by rw [h, hm]; exact List.mem_cons_self _ _)
    · exact Or.inr (List.mem_cons_of_mem _ h)

theorem zScoresCat_of_var_zero {xs : List ℚ} (std : ℚ) (h : pandasVar xs = some 0) :
    zScoresCat xs std false = xs.map (fun _ => PFloat.val 0) := by
  simp [zScoresCat, h]

theorem dailyZCat_of_var_zero {xs : List ℚ} (std : ℚ) (h : pandasVar xs = some 0) :
    dailyZCat xs std = xs.map (fun _ => PFloat.val 0) := by
  have hmean := eq_mean_of_sumSqDev_eq_zero (pandasVar_eq_zero h).2
  simp only [dailyZCat, h, if_true]
  exact List.map_congr_left fun x hx => by rw [hmean x hx]; simp

theorem zScoresCat_singleton (x std : ℚ) : zScoresCat [x] std false = [PFloat.nan] := by
  simp [zScoresCat, pandasVar]

theorem dailyZCat_singleton (x std : ℚ) : dailyZCat [x] std = [PFloat.nan] := by
  simp [dailyZCat, pandasVar]

/-! ### Claim theorems -/

/-- C2, counterexample: the claim states that a normalization cohort with
exactly one player gets StandardScore 0 and that NaN never propagates; in
the code the pandas sample std of a singleton cohort is NaN (ddof = 1), the
`std == 0` guard does not fire, and the z-score column holds NaN, not 0. -/
theorem degenerate_cohort_C2_cex :
    zScoresCat [(5 : ℚ)] 1 false = [PFloat.nan] ∧ PFloat.nan ≠ PFloat.val 0 :=
  ⟨zScoresCat_singleton 5 1, by decide⟩

/-- C2, amended: for a cohort of at least two players with sample variance 0
(standard deviation exactly 0), both the season z-score path and the daily
value path emit the score 0 for every player, with no NaN or infinity; a
cohort of exactly one player instead has NaN sample std and both paths emit
NaN for it, the daily path then zeroing its Daily_Value contribution through
`fillna(0)`. -/
theorem degenerate_cohort_C2 (xs : List ℚ) (std x : ℚ) :
    (pandasVar xs = some 0 →
      zScoresCat xs std false = xs.map (fun _ => PFloat.val 0) ∧
      dailyZCat xs std = xs.map (fun _ => PFloat.val 0)) ∧
    (zScoresCat [x] std false = [PFloat.nan] ∧ dailyContribCat [x] std = [0]) := by
  refine ⟨fun h => ⟨zScoresCat_of_var_zero std h, dailyZCat_of_var_zero std h⟩, ?_, ?_⟩
  · exact zScoresCat_singleton x std
  · rw [dailyContribCat, dailyZCat_singleton x std]; rfl

/-- C2, witness: a two-player tied cohort really has sample variance 0 and
both paths emit exactly zero scores. -/
theorem degenerate_cohort_C2_witness :
    pandasVar [(3 : ℚ), 3] = some 0 ∧
    zScoresCat [(3 : ℚ), 3] 1 false = [PFloat.val 0, PFloat.val 0] ∧
    dailyZCat [(3 : ℚ), 3] 1 = [PFloat.val 0, PFloat.val 0] := by
  have hv : pandasVar [(3 : ℚ), 3] = some 0 := by
    norm_num [pandasVar, sumSqDev, mean]
  have h := (degenerate_cohort_C2 [(3 : ℚ), 3] 1 0).1 hv
  exact ⟨hv, by simpa using h.1, by simpa using h.2⟩

/-- C8: the two degenerate-cohort strategies agree extensionally: whenever
the cohort standard deviation is exactly 0 (sample variance 0), the daily
path's substituted divisor of 1 produces the same all-zero scores as the
season path's directly emitted 0, because every raw value then equals the
cohort mean. -/
theorem degenerate_paths_equiv_C8 (xs : List ℚ) (std : ℚ)
    (h : pandasVar xs = some 0) :
    dailyZCat xs std = zScoresCat xs std false ∧
    ∀ z ∈ dailyZCat xs std, z = PFloat.val 0 := by
  have hd := dailyZCat_of_var_zero std h
  constructor
  · rw [hd, zScoresCat_of_var_zero std h]
  · rw [hd]
    intro z hz
    rcases List.mem_map.mp hz with ⟨y, _, rfl⟩
    rfl

/-- C8, witness: concrete tied cohort with variance 0. -/
theorem degenerate_paths_equiv_C8_witness :
    dailyZCat [(2 : ℚ), 2] 5 = zScoresCat [(2 : ℚ), 2] 5 false :=
  (degenerate_paths_equiv_C8 [(2 : ℚ), 2] 5
    (by norm_num [pandasVar, sumSqDev, mean])).1

/-- C3: for a positive window length `W`, a pivoted value column treats days
with no observation as 0; the rolling mean is undefined (NaN) at the first
`W - 1` positions, equals the arithmetic mean of the `W` consecutive entries
ending at each later position inclusive, and equals `v` at every defined
position of a constant series `v`. -/
theorem rolling_window_engine_C3 (W : ℕ) (hW : 0 < W) :
    (∀ (obs : List (ℕ × ℚ)) (numDays d : ℕ), d < numDays → (∀ p ∈ obs, p.1 ≠ d) →
      (pivotColumn obs numDays)[d]? = some 0) ∧
    (∀ (xs : List ℚ) (i : ℕ), i < xs.length → i + 1 < W →
      (rollingMean W xs)[i]? = some none) ∧
    (∀ (xs : List ℚ) (i : ℕ), i < xs.length → W ≤ i + 1 →
      (rollingMean W xs)[i]? =
        some (some
          (((List.range W).map (fun j => xs.getD (i + 1 - W + j) 0)).sum / (W : ℚ)))) ∧
    (∀ (n : ℕ) (v : ℚ) (i : ℕ), i < n → W ≤ i + 1 →
      (rollingMean W (List.replicate n v))[i]? = some (some v)) := by
  have hpos : ∀ (xs : List ℚ) (i : ℕ), i < xs.length → W ≤ i + 1 →
      (rollingMean W xs)[i]? =
        some (some
          (((List.range W).map (fun j => xs.getD (i + 1 - W + j) 0)).sum / (W : ℚ))) := by
    intro xs i hi hWi
    have hab : i + 1 - W + W = i + 1 := by omega
    rw [rollingMean, List.getElem?_map, List.getElem?_range hi]
    simp only [Option.map_some']
    rw [if_neg (by omega)]
    rw [show xs.take (i + 1) = xs.take (i + 1 - W + W) by rw [hab]]
    rw [take_drop_window xs (i + 1 - W) W (by omega)]
  refine ⟨?_, ?_, hpos, ?_⟩
  · intro obs numDays d hd hobs
    rw [pivotColumn, List.getElem?_map, List.getElem?_range hd]
    simp only [Option.map_some']
    rw [List.filter_eq_nil_iff.mpr (fun p hp => by simp [hobs p hp])]
    rfl
  · intro xs i hi hWi
    rw [rollingMean, List.getElem?_map, List.getElem?_range hi]
    simp only [Option.map_some']
    rw [if_pos hWi]
  · intro n v i hi hWi
    have hlen : i < (List.replicate n v).length := by
      rw [List.length_replicate]; exact hi
    rw [hpos (List.replicate n v) i hlen hWi]
    have hsum : ((List.range W).map
        (fun j => (List.replicate n v).getD (i + 1 - W + j) 0)).sum = (W : ℚ) * v := by
      have hcongr : (List.range W).map
          (fun j => (List.replicate n v).getD (i + 1 - W + j) 0) =
            (List.range W).map (fun _ => v) := by
        refine List.map_congr_left fun j hj => ?_
        have hjW : j < W := List.mem_range.mp hj
        have hidx : i + 1 - W + j < n := by omega
        rw [List.getD_eq_getElem?_getD, List.getElem?_replicate, if_pos hidx]
        rfl
      rw [hcongr, List.map_const', List.length_range, List.sum_replicate,
        nsmul_eq_mul]
    rw [hsum]
    have hW0 : (W : ℚ) ≠ 0 := Nat.cast_ne_zero.mpr (by omega)
    rw [mul_div_cancel_left₀ v hW0]

/-- C3, witness: window 2 over a constant series of value 4 is defined from
the second position on and equals 4 there. -/
theorem rolling_window_engine_C3_witness :
    (rollingMean 2 (List.replicate 3 (4 : ℚ)))[2]? = some (some 4) :=
  (rolling_window_engine_C3 2 (by norm_num)).2.2.2 3 4 2 (by norm_num) (by norm_num)

theorem selectWindow_eq (ws : List ℕ) (corr : ℕ → Option ℚ) :
    selectWindow ws corr =
      match ws.find? (fun w => nanGe (corr w) (nanMul09 (pyMax (ws.map corr)))) with
      | some w => (w, corr w)
      | none => (90, some 0) := rfl

/-- C1: over the reference candidate set (multiples of 3 from 3 to 90), when
every candidate has a computed (non-NaN) correlation, the optimizer returns
the smallest window whose correlation is at least 0.90 times the maximum
correlation, paired with that window's correlation; when no candidate meets
the threshold it falls back to the largest candidate window, 90. -/
theorem window_optimizer_C1 (g : ℕ → ℚ) :
    ((∃ w ∈ windowsList, 0.90 * foldMaxQ (windowsList.map g) ≤ g w) →
      ∃ w ∈ windowsList,
        selectWindow windowsList (fun u => some (g u)) = (w, some (g w)) ∧
        0.90 * foldMaxQ (windowsList.map g) ≤ g w ∧
        ∀ u ∈ windowsList, 0.90 * foldMaxQ (windowsList.map g) ≤ g u → w ≤ u) ∧
    ((∀ w ∈ windowsList, g w < 0.90 * foldMaxQ (windowsList.map g)) →
      selectWindow windowsList (fun u => some (g u)) = (90, some 0) ∧
      90 ∈ windowsList ∧ ∀ w ∈ windowsList, w ≤ 90) := by
  have hne : windowsList.map g ≠ [] := by simp [windowsList]
  have hpy : pyMax (windowsList.map (fun u => some (g u))) =
      some (foldMaxQ (windowsList.map g)) := by
    rw [show windowsList.map (fun u => some (g u)) =
        (windowsList.map g).map (fun q => some q) by rw [List.map_map]; rfl]
    exact pyMax_map_some _ hne
  have hsel : selectWindow windowsList (fun u => some (g u)) =
      match windowsList.find?
          (fun w => decide (0.90 * foldMaxQ (windowsList.map g) ≤ g w)) with
      | some w => (w, some (g w))
      | none => (90, some 0) := by
    rw [selectWindow_eq]
    simp only [hpy, nanMul09, nanGe]
  constructor
  · intro hex
    obtain ⟨w1, hw1m, hw1⟩ := hex
    cases hfind : windowsList.find?
        (fun w => decide (0.90 * foldMaxQ (windowsList.map g) ≤ g w)) with
    | none =>
      exfalso
      have hno := List.find?_eq_none.mp hfind w1 hw1m
      simp only [decide_eq_true_eq] at hno
      exact hno hw1
    | some w0 =>
      refine ⟨w0, List.mem_of_find?_eq_some hfind, ?_, ?_, ?_⟩
      · rw [hsel, hfind]
      · have hp := List.find?_some hfind
        exact of_decide_eq_true hp
      · intro u hu hthu
        exact find?_min_of_sorted (by decide) hfind u hu (decide_eq_true hthu)
  · intro hall
    have hfind : windowsList.find?
        (fun w => decide (0.90 * foldMaxQ (windowsList.map g) ≤ g w)) = none := by
      apply List.find?_eq_none.mpr
      intro x hx
      simp only [decide_eq_true_eq]
      exact not_le.mpr (hall x hx)
    refine ⟨?_, by decide, by decide⟩
    rw [hsel, hfind]

/-- C1, witness: with all correlations equal to 1 the threshold is 0.9 and
the optimizer returns the smallest candidate window, 3, with its
correlation. -/
theorem window_optimizer_C1_witness :
    selectWindow windowsList (fun _ => some (1 : ℚ)) = (3, some 1) := by
  have hth : (0.90 : ℚ) * foldMaxQ (windowsList.map (fun _ => (1 : ℚ))) ≤ 1 := by
    norm_num [windowsList, foldMaxQ]
  obtain ⟨w, hmem, heq, _, hmin⟩ :=
    (window_optimizer_C1 (fun _ => 1)).1 ⟨3, by decide, hth⟩
  have hw3 : w = 3 := by
    have h1 : w ≤ 3 := hmin 3 (by decide) hth
    have h2 : ∀ u ∈ windowsList, 3 ≤ u := by decide
    exact le_antisymm h1 (h2 w hmem)
  rw [hw3] at heq
  exact heq

/-- C6, counterexample: the claim states that a window with an undefined
correlation (fewer than 2 paired observations, pandas NaN) is excluded from
the candidate set, contributes nothing to the maximum-correlation
computation, and causes no zero default.  In the code the NaN stays in the
dict; when it belongs to the smallest window (the first dict entry) the
Python `max()` scan returns NaN, the threshold becomes NaN, no window passes
the `>=` test, and the optimizer returns the fallback `(90, 0)` — a zero
default; dropping the undefined window instead would have selected window 6
with its correlation 1. -/
theorem undefined_correlation_C6_cex :
    selectWindow windowsList (fun w => if w = 3 then none else some 1) =
      (90, some 0) ∧
    selectWindow (windowsList.drop 1) (fun w => if w = 3 then none else some 1) =
      (6, some 1) := by
  constructor
  · norm_num [selectWindow, windowsList, pyMax, nanLt, nanGe, nanMul09]
  · norm_num [selectWindow, windowsList, pyMax, nanLt, nanGe, nanMul09]

/-- C6, amended: a window whose correlation is NaN is never the window
selected by the threshold scan (any `>=` against or of NaN is false), but it
is not excluded from the candidate dict: when the smallest window's
correlation is NaN, `max()` returns NaN and the optimizer falls back to
`(90, 0)`, a zero default. -/
theorem undefined_correlation_C6 (corr : ℕ → Option ℚ) :
    (∀ w : ℕ,
      windowsList.find?
          (fun u => nanGe (corr u) (nanMul09 (pyMax (windowsList.map corr)))) =
        some w → (corr w).isSome = true) ∧
    (corr 3 = none → selectWindow windowsList corr = (90, some 0)) := by
  constructor
  · intro w hf
    have hp := List.find?_some hf
    cases hc : corr w with
    | none => rw [hc, nanGe_none_left] at hp; cases hp
    | some a => rfl
  · intro h3
    have hpy : pyMax (windowsList.map corr) = none := by
      rw [show windowsList.map corr = corr 3 :: (windowsList.tail).map corr from rfl,
        h3]
      exact foldl_pymax_none _
    have hfind : windowsList.find?
        (fun u => nanGe (corr u) (nanMul09 (pyMax (windowsList.map corr)))) =
          none := by
      apply List.find?_eq_none.mpr
      intro x _
      rw [hpy]
      simp [nanMul09, nanGe_none_right]
    rw [selectWindow_eq, hfind]

/-- C6, witness: all-NaN correlations trigger the fallback. -/
theorem undefined_correlation_C6_witness :
    selectWindow windowsList (fun _ => none) = (90, some 0) :=
  (undefined_correlation_C6 (fun _ => none)).2 rfl

/-- C5: the Season Ranker sorts each team's players by TotalValue descending
(the sorted cohort is a permutation of the team cohort in weakly decreasing
order) and takes the top 5; the tie-break is stable — for every value `q`,
the players whose TotalValue is `q` appear in the sorted output in exactly
their original relative order, since the pandas descending sort pre-reverses
values and index and post-reverses the stable argsort's indexer, cancelling
on ties.  Re-running on unchanged input produces identical output: the
selection is a pure function of its input. -/
theorem season_ranker_C5 (l : List RankedPlayer) (t : ℕ) :
    (sortValuesDescBy (fun p => p.totalZ) (teamPlayers l t)).Perm (teamPlayers l t) ∧
    (teamTop5 l t).Pairwise (fun a b => b.totalZ ≤ a.totalZ) ∧
    (teamTop5 l t).length ≤ 5 ∧
    (∀ q : ℚ,
      (sortValuesDescBy (fun p => p.totalZ) (teamPlayers l t)).filter
          (fun p => p.totalZ == q) =
        (teamPlayers l t).filter (fun p => p.totalZ == q)) := by
  refine ⟨sortValuesDescBy_perm _ _, ?_, ?_, ?_⟩
  · exact (sortValuesDescBy_pairwise _ _).sublist (List.take_sublist _ _)
  · rw [teamTop5, List.length_take]
    exact min_le_left _ _
  · intro q
    exact sortValuesDescBy_stable _ q _

/-- C5, witness: a fully tied two-player cohort keeps its original order in
the sorted output, and the selection never exceeds five players. -/
theorem season_ranker_C5_witness :
    (sortValuesDescBy (fun p => p.totalZ) (teamPlayers [⟨1, 4, 3⟩, ⟨2, 4, 3⟩] 4)).filter
        (fun p => p.totalZ == 3) =
      (teamPlayers [⟨1, 4, 3⟩, ⟨2, 4, 3⟩] 4).filter (fun p => p.totalZ == 3) ∧
    (teamTop5 [⟨1, 4, 3⟩, ⟨2, 4, 3⟩] 4).length ≤ 5 := by
  have h := season_ranker_C5 [⟨1, 4, 3⟩, ⟨2, 4, 3⟩] 4
  exact ⟨h.2.2.2 3, h.2.2.1⟩

/-- C9: with a nonempty list of daily team ids, the Season Ranker's team
assignment is a most frequent team id (the first, i.e. smallest, of the
sorted pandas modes); the fallback to the last record never fires because the
mode list of a nonempty series is nonempty. -/
theorem season_team_mode_C9 (xs : List ℕ) (h : xs ≠ []) :
    aggTeamId xs ∈ xs ∧
    (∀ v ∈ xs, xs.count v ≤ xs.count (aggTeamId xs)) ∧
    (∀ v ∈ xs, xs.count v = xs.count (aggTeamId xs) → aggTeamId xs ≤ v) ∧
    modeList xs ≠ [] := by
  obtain ⟨y, hy⟩ := List.exists_mem_of_ne_nil xs h
  have hyu : y ∈ xs.dedup := List.mem_dedup.mpr hy
  have hattain : ∃ v ∈ xs.dedup,
      xs.count v = (xs.dedup.map (fun v => xs.count v)).foldl max 0 := by
    rcases foldl_max_mem (xs.dedup.map fun v => xs.count v) 0 with h0 | hmem
    · exfalso
      have h1 : xs.count y ≤ (xs.dedup.map fun v => xs.count v).foldl max 0 :=
        mem_le_foldl_max (List.mem_map_of_mem (fun v => xs.count v) hyu) 0
      have h2 : 0 < xs.count y := List.count_pos_iff.mpr hy
      omega
    · exact List.mem_map.mp hmem
  obtain ⟨v0, hv0u, hv0c⟩ := hattain
  have hv0f : v0 ∈ xs.dedup.filter
      (fun v => xs.count v == (xs.dedup.map (fun v => xs.count v)).foldl max 0) :=
    List.mem_filter.mpr ⟨hv0u, by simp [hv0c]⟩
  have hv0mode : v0 ∈ modeList xs := by
    rw [modeList]
    exact (List.mem_insertionSort _).mpr hv0f
  have hne : modeList xs ≠ [] := List.ne_nil_of_mem hv0mode
  obtain ⟨m0, rest, hcons⟩ : ∃ m0 rest, modeList xs = m0 :: rest := by
    cases hml : modeList xs with
    | nil => exact absurd hml hne
    | cons a r => exact ⟨a, r, rfl⟩
  have hagg : aggTeamId xs = m0 := by rw [aggTeamId, hcons]
  have hm0mode : m0 ∈ modeList xs := by rw [hcons]; exact List.mem_cons_self _ _
  have hm0f : m0 ∈ xs.dedup.filter
      (fun v => xs.count v == (xs.dedup.map (fun v => xs.count v)).foldl max 0) := by
    rw [modeList] at hm0mode
    exact (List.mem_insertionSort _).mp hm0mode
  have hm0u : m0 ∈ xs.dedup := (List.mem_filter.mp hm0f).1
  have hm0c : xs.count m0 = (xs.dedup.map (fun v => xs.count v)).foldl max 0 := by
    have := (List.mem_filter.mp hm0f).2
    exact eq_of_beq this
  refine ⟨?_, ?_, ?_, hne⟩
  · rw [hagg]; exact List.mem_dedup.mp hm0u
  · intro v hv
    rw [hagg, hm0c]
    exact mem_le_foldl_max (List.mem_map_of_mem (fun v => xs.count v) (List.mem_dedup.mpr hv)) 0
  · intro v hv hvc
    rw [hagg] at hvc ⊢
    have hvf : v ∈ xs.dedup.filter
        (fun v => xs.count v == (xs.dedup.map (fun v => xs.count v)).foldl max 0) :=
      List.mem_filter.mpr ⟨List.mem_dedup.mpr hv, by
        rw [hvc, hm0c]; simp⟩
    have hvmode : v ∈ modeList xs := by
      rw [modeList]
      exact (List.mem_insertionSort _).mpr hvf
    have hsorted : (modeList xs).Pairwise (fun a b => a ≤ b) := by
      rw [modeList]
      exact List.sorted_insertionSort _ _
    rw [hcons] at hvmode hsorted
    rcases List.mem_cons.mp hvmode with rfl | hvrest
    · exact le_refl _
    · exact (List.pairwise_cons.mp hsorted).1 v hvrest

/-- C9, witness: a player with team records `[1, 1, 2]` (traded to team 2 at
the end) is assigned team 1, the most frequent team, not the final team 2. -/
theorem season_team_mode_C9_witness :
    aggTeamId [1, 1, 2] ∈ [1, 1, 2] ∧ aggTeamId [1, 1, 2] = 1 ∧
    [1, 1, 2].getLast?.getD 0 = 2 := by
  have h := season_team_mode_C9 [1, 1, 2] (by decide)
  exact ⟨h.1, by decide, by decide⟩

/-- C4: a free-agent candidate is flagged against a roster player exactly
when its rolling value exceeds the player's value by strictly more than
0.75; a roster player with no row on the checkpoint day is compared as the
sentinel -999; and every emitted recommendation lists at most the top two
flagged candidates, in descending value order, each more than 0.75 above the
player's value. -/
theorem comparator_margin_C4 :
    (∀ (topFAs : List RollingRow) (mv : ℚ) (fa : RollingRow),
        fa ∈ flaggedFAs topFAs mv ↔ fa ∈ topFAs ∧ mv + 0.75 < fa.value) ∧
    (∀ (dayStats : List RollingRow) (pid : String),
        (∀ s ∈ dayStats, s.pid ≠ pid) → lookupMyVal dayStats pid = -999) ∧
    (∀ (rosterRows : List RosterRow) (team : String)
        (rollingRows : List RollingRow) (d : ℕ) (r : Recommendation),
        r ∈ checkpointRecs rosterRows team rollingRows d →
        r.betterFA.length ≤ 2 ∧
        r.betterFA.Pairwise (fun a b => b.2 ≤ a.2) ∧
        ∀ fa ∈ r.betterFA, r.myVal + 0.75 < fa.2) := by
  refine ⟨?_, ?_, ?_⟩
  · intro topFAs mv fa
    rw [flaggedFAs, List.mem_filter]
    simp only [decide_eq_true_eq]
  · intro dayStats pid hno
    rw [lookupMyVal]
    have hfind : dayStats.find? (fun s => s.pid == pid) = none :=
      List.find?_eq_none.mpr fun s hs => by simp [hno s hs]
    rw [hfind]
  · intro rosterRows team rollingRows d r hr
    simp only [checkpointRecs] at hr
    split at hr
    · exact absurd hr (List.not_mem_nil r)
    · split at hr
      · exact absurd hr (List.not_mem_nil r)
      · rw [List.mem_filterMap] at hr
        obtain ⟨a, _, hfa⟩ := hr
        simp only [recFor] at hfa
        split at hfa
        · exact absurd hfa (by simp)
        · obtain rfl : r = _ := (Option.some.inj hfa).symm
          refine ⟨?_, ?_, ?_⟩
          · rw [List.length_map, List.length_take]
            exact min_le_left _ _
          · apply List.pairwise_map.mpr
            exact (((topFAsOf_pairwise rosterRows rollingRows d).filter
              _).sublist (List.take_sublist _ _)).imp (fun h => h)
          · intro fa hfa'
            rw [List.mem_map] at hfa'
            obtain ⟨fb, hfb, rfl⟩ := hfa'
            have hfb2 : fb ∈ flaggedFAs (topFAsOf rosterRows rollingRows d)
                (lookupMyVal (dayStatsOf rollingRows d) a.pid) :=
              List.mem_of_mem_take hfb
            have := (List.mem_filter.mp hfb2).2
            simpa using this

/-- C4, witness: with roster value 1.0 a 1.80-valued free agent (margin 0.80)
is flagged and a 1.70-valued one (margin 0.70) is not, and the lookup of an
absent roster player yields the sentinel. -/
theorem comparator_margin_C4_witness :
    ((⟨5, "f", 1.80, "F"⟩ : RollingRow) ∈
      flaggedFAs [⟨5, "f", 1.80, "F"⟩, ⟨5, "g", 1.70, "G"⟩] 1) ∧
    ¬ ((⟨5, "g", 1.70, "G"⟩ : RollingRow) ∈
      flaggedFAs [⟨5, "f", 1.80, "F"⟩, ⟨5, "g", 1.70, "G"⟩] 1) ∧
    lookupMyVal [] "p" = -999 := by
  have h := comparator_margin_C4
  refine ⟨?_, ?_, ?_⟩
  · exact (h.1 _ _ _).mpr ⟨by simp, by norm_num⟩
  · intro hmem
    have hlt := ((h.1 _ _ _).mp hmem).2
    norm_num at hlt
  · exact h.2.1 [] "p" (by simp)

/-- C7: in the Team Success accumulation, a team holding exactly one roster
interval, covering the whole accumulation range, collects exactly the sum of
that player's daily values over the range, with both endpoints included;
intervals of other teams contribute nothing. -/
theorem team_success_C7 (others : List RosterRow) (iv : RosterRow)
    (playerDaily : List (ℕ × String × ℚ)) (a b : ℕ) (t : String)
    (hteam : iv.team = t) (hothers : ∀ r ∈ others, r.team ≠ t)
    (hstart : iv.startD ≤ a) (hend : b ≤ iv.endD) :
    teamTotal (others ++ [iv]) playerDaily a b t =
      ((List.range (b + 1 - a)).map
        (fun k => dayValLookup playerDaily (a + k) iv.pid)).sum := by
  rw [teamTotal]
  congr 1
  refine List.map_congr_left fun k hk => ?_
  have hkb : a + k ≤ b := by
    have := List.mem_range.mp hk
    omega
  have hactive : activeOn (others ++ [iv]) (a + k) =
      activeOn others (a + k) ++ [iv] := by
    rw [activeOn, activeOn, List.filter_append]
    congr 1
    rw [List.filter_cons, List.filter_nil]
    rw [if_pos]
    simp only [Bool.and_eq_true, decide_eq_true_eq]
    omega
  rw [hactive, List.filter_append]
  have hdrop : (activeOn others (a + k)).filter (fun r => r.team == t) = [] := by
    apply List.filter_eq_nil_iff.mpr
    intro r hr
    have hrmem : r ∈ others := List.mem_of_mem_filter hr
    simp [hothers r hrmem]
  rw [hdrop, List.nil_append, List.filter_cons, List.filter_nil]
  rw [if_pos (by simp [hteam])]
  simp

/-- C7, witness: one interval of team A spanning days 0-9, accumulated over
days 1-2, collects the player's values 3 and 4; team B's interval adds
nothing. -/
theorem team_success_C7_witness :
    teamTotal ([⟨"B", "x", "X", 0, 9⟩] ++ [⟨"A", "p", "P", 0, 9⟩])
      [(1, "p", 3), (2, "p", 4)] 1 2 "A" = 7 := by
  rw [team_success_C7 [⟨"B", "x", "X", 0, 9⟩] ⟨"A", "p", "P", 0, 9⟩
    [(1, "p", 3), (2, "p", 4)] 1 2 "A" rfl (by simp) (by norm_num) (by norm_num)]
  norm_num [dayValLookup, List.range_succ]

/-- C10: a checkpoint Monday at which the target team has no active roster
interval, or at which the rolling-value table has no row dated exactly that
day, produces no recommendations at all; the -999 sentinel arises only for
an individual roster player missing from a non-empty checkpoint day, as the
concrete instance shows. -/
theorem checkpoint_guards_C10 (rosterRows : List RosterRow) (team : String)
    (rollingRows : List RollingRow) (d : ℕ) :
    (currentRosterOf rosterRows team d = [] →
      checkpointRecs rosterRows team rollingRows d = []) ∧
    (dayStatsOf rollingRows d = [] →
      checkpointRecs rosterRows team rollingRows d = []) ∧
    (dayStatsOf [⟨5, "q", 2, "Q"⟩] 5 ≠ [] ∧
      checkpointRecs [⟨"A", "p1", "P1", 0, 10⟩] "A" [⟨5, "q", 2, "Q"⟩] 5 =
        [⟨5, "P1", -999, [("Q", 2)]⟩]) := by
  refine ⟨?_, ?_, ?_, ?_⟩
  · intro h
    simp [checkpointRecs, h]
  · intro h
    simp only [checkpointRecs, h, List.isEmpty_nil]
    split
    · rfl
    · rfl
  · simp [dayStatsOf]
  · simp [checkpointRecs, currentRosterOf, dayStatsOf, topFAsOf, recFor,
      activeOn, lookupMyVal, flaggedFAs, sortValuesDescBy, keyGE,
      List.insertionSort, List.orderedInsert, List.filterMap]
    all_goals norm_num

/-- C10, witness: an empty checkpoint day yields no recommendations. -/
theorem checkpoint_guards_C10_witness :
    checkpointRecs [⟨"B", "p9", "P9", 3, 4⟩] "B" [] 9 = [] :=
  (checkpoint_guards_C10 [⟨"B", "p9", "P9", 3, 4⟩] "B" [] 9).2.1 rfl

example : pandasVar [(5 : ℚ)] = none := by norm_num [pandasVar]
example : zScoresCat [(5 : ℚ)] 1 false = [PFloat.nan] := by
  norm_num [zScoresCat, pandasVar]
example : pandasVar [(3 : ℚ), 3] = some 0 := by
  norm_num [pandasVar, sumSqDev, mean]
example : zScoresCat [(3 : ℚ), 3] 1 false = [PFloat.val 0, PFloat.val 0] := by
  norm_num [zScoresCat, pandasVar, sumSqDev, mean]
example : dailyZCat [(3 : ℚ), 3] 7 = [PFloat.val 0, PFloat.val 0] := by
  norm_num [dailyZCat, pandasVar, sumSqDev, mean]
example : dailyContribCat [(5 : ℚ)] 1 = [0] := by
  norm_num [dailyContribCat, dailyZCat, pandasVar, PFloat.fillna0]
